import Mathlib

/-!
Shallow embedding of the "Metrics Rollup" logic of the email-tracker
dashboard (range resolver, row filter, aggregator, formatter/exporter),
translated from the two main dashboard variants in the repository
(referred to below as part 000 and part 001).

Embedding conventions:

* Dates.  The source stores dates as ISO `YYYY-MM-DD` strings, compares
  them lexicographically (the row filter uses `>=`/`<=` on the strings,
  `dateRangeInclusive` loops `while cur <= endISO`), and advances them by
  whole days with JS `Date` arithmetic (`addDays`).  ISO date strings are
  strictly monotone, lexicographically, in the calendar day they denote,
  so a date is embedded as its integer day index: `addDays d 1` becomes
  `d + 1`, lexicographic comparison becomes `≤` on `ℤ`, and
  `daysBetween s e` becomes `(e - s).toNat`.

* Numbers.  The integer-valued columns (`total_first_responses`,
  `sla_breaches`) are embedded as `ℤ`, the minutes column
  (`avg_first_response_minutes`) as `ℚ`.  A missing / `null` field is
  `none`; the JS idioms `x || 0` and `safeNumber(x) || 0` are
  `Option.getD x 0`, and `typeof avg === "number"` (as well as part 001's
  `safeNumber(avg) !== null`) is `Option.isSome`.

* The JS falsy test `!employee_email` (which skips both missing and empty
  identifiers) is `emailOk` below.

* JS `Math.round` rounds half toward `+∞`, i.e. `Math.round x = ⌊x + 1/2⌋`.

* The aggregation code never throws; to *prove* that (claim C9) the only
  partial arithmetic operation it uses — division — is instrumented in the
  `...E` variants as a fallible `Except` computation that fails on a zero
  denominator, and the theorems show the instrumented variants always
  return `.ok` of the plain result.
-/

namespace Dashboard

/-- JS `Math.round`: round half toward positive infinity. -/
def jround (q : ℚ) : Int := ⌊q + 1/2⌋

/-- Source pattern `Math.round(q * 10) / 10`: round to one decimal place. -/
def round1 (q : ℚ) : ℚ := (jround (q * 10) : ℚ) / 10

/-- Part 001 `clamp(n, min, max) = Math.max(min, Math.min(max, n))`. -/
def clamp (n lo hi : Int) : Int := max lo (min hi n)

/-- One row of the `daily_first_responder_metrics` feed, as the dashboards
receive it: every column may be missing (`none`). -/
structure MetricRow where
  date : Option Int
  employee_email : Option String
  total_first_responses : Option Int
  avg_first_response_minutes : Option ℚ
  sla_breaches : Option Int
deriving DecidableEq

/-- JS `r.total_first_responses || 0`. -/
def cntOf (r : MetricRow) : Int := r.total_first_responses.getD 0

/-- JS `r.sla_breaches || 0`. -/
def brOf (r : MetricRow) : Int := r.sla_breaches.getD 0

/-- JS truthiness of `r.employee_email`: `false` for a missing or empty
identifier (the `if (!email) continue` test in both variants). -/
def emailOk (r : MetricRow) : Bool :=
  match r.employee_email with
  | some s => !s.isEmpty
  | none => false

/-- The employee key used for grouping: `some email` when the identifier is
truthy, `none` when the row is skipped. -/
def getEmail (r : MetricRow) : Option String :=
  match r.employee_email with
  | some s => if s.isEmpty then none else some s
  | none => none

/-- The data-model invariant of the spec (section 3): counts are
non-negative and `sla_breaches ≤ total_first_responses` per row.  The
source does not enforce it. -/
def WFRow (r : MetricRow) : Prop :=
  0 ≤ cntOf r ∧ 0 ≤ brOf r ∧ brOf r ≤ cntOf r

/-- Part 000 `rows.reduce((sum, r) => sum + (r.total_first_responses || 0), 0)`
(also part 001 `totalResponses`). -/
def totalResponsesOf (rows : List MetricRow) : Int :=
  rows.foldl (fun sum r => sum + cntOf r) 0

/-- Part 000 `rows.reduce((sum, r) => sum + (r.sla_breaches || 0), 0)`
(also part 001 `totalBreaches`). -/
def totalBreachesOf (rows : List MetricRow) : Int :=
  rows.foldl (fun sum r => sum + brOf r) 0

/-- The weighted-average accumulation loop shared by part 000 `totals` and
part 001 `avgResponse`: starting from accumulators `(wTotal, wCount)`, for
each row with a present average and positive count, add `avg * cnt` and
`cnt`. -/
def weightedLoop : List MetricRow → ℚ → Int → ℚ × Int
  | [], wTotal, wCount => (wTotal, wCount)
  | r :: rs, wTotal, wCount =>
    match r.avg_first_response_minutes with
    | some avg =>
      if 0 < cntOf r then
        weightedLoop rs (wTotal + avg * (cntOf r : ℚ)) (wCount + cntOf r)
      else weightedLoop rs wTotal wCount
    | none => weightedLoop rs wTotal wCount

/-- Result of part 000's `totals` useMemo.  The `"—"` sentinel of the source
is `none`. -/
structure Totals where
  totalResponses : Int
  totalBreaches : Int
  avgMinutes : Option ℚ
  slaPercent : Option Int
deriving DecidableEq

/-- Part 000 `totals`: team-wide rollup over the filtered rows. -/
def totals (rows : List MetricRow) : Totals :=
  let totalResponses := totalResponsesOf rows
  let totalBreaches := totalBreachesOf rows
  let w := weightedLoop rows 0 0
  { totalResponses := totalResponses
    totalBreaches := totalBreaches
    avgMinutes := if 0 < w.2 then some (round1 (w.1 / (w.2 : ℚ))) else none
    slaPercent :=
      if 0 < totalResponses then
        some (jround (((totalResponses : ℚ) - (totalBreaches : ℚ)) /
          (totalResponses : ℚ) * 100))
      else none }

/-- Per-employee accumulator bucket of part 000's `perEmployee`. -/
structure EmpAcc where
  employee_email : String
  total_first_responses : Int
  sla_breaches : Int
  weighted : ℚ
deriving DecidableEq

/-- Add one row into a bucket (part 000 `perEmployee` loop body). -/
def updAcc (r : MetricRow) (a : EmpAcc) : EmpAcc :=
  { a with
    total_first_responses := a.total_first_responses + cntOf r
    sla_breaches := a.sla_breaches + brOf r
    weighted := a.weighted +
      (match r.avg_first_response_minutes with
       | some avg => if 0 < cntOf r then avg * (cntOf r : ℚ) else 0
       | none => 0) }

/-- Update the bucket for `email` in the accumulator association list,
creating a fresh zero bucket at the end when absent (JS object keys keep
insertion order). -/
def insertUpd : List EmpAcc → String → MetricRow → List EmpAcc
  | [], email, r => [updAcc r ⟨email, 0, 0, 0⟩]
  | a :: as, email, r =>
    if a.employee_email == email then updAcc r a :: as
    else a :: insertUpd as email r

/-- The grouping loop of part 000's `perEmployee`: rows with a falsy
`employee_email` are skipped. -/
def accFold : List MetricRow → List EmpAcc → List EmpAcc
  | [], acc => acc
  | r :: rs, acc =>
    match getEmail r with
    | none => accFold rs acc
    | some email => accFold rs (insertUpd acc email r)

/-- One element of part 000's `perEmployee` output. -/
structure EmpSummary where
  employee_email : String
  total_first_responses : Int
  sla_breaches : Int
  avg_response : Option ℚ
  sla_percent : Option Int
deriving DecidableEq

/-- Turn a bucket into a summary (the `Object.values(acc).map(...)` step). -/
def summarize (e : EmpAcc) : EmpSummary :=
  { employee_email := e.employee_email
    total_first_responses := e.total_first_responses
    sla_breaches := e.sla_breaches
    avg_response :=
      if 0 < e.total_first_responses then
        some (round1 (e.weighted / (e.total_first_responses : ℚ)))
      else none
    sla_percent :=
      if 0 < e.total_first_responses then
        some (jround (((e.total_first_responses : ℚ) - (e.sla_breaches : ℚ)) /
          (e.total_first_responses : ℚ) * 100))
      else none }

/-- Stable insertion used to model `Array.prototype.sort` (JS sort is
stable): insert `a` before the first `b` such that `le a b`. -/
def insertBy {α : Type} (le : α → α → Bool) (a : α) : List α → List α
  | [] => [a]
  | b :: bs => if le a b then a :: b :: bs else b :: insertBy le a bs

/-- Stable sort by the boolean relation `le` (model of `Array.sort` with a
comparator). -/
def sortBy {α : Type} (le : α → α → Bool) : List α → List α
  | [] => []
  | a :: as => insertBy le a (sortBy le as)

/-- Part 000 `perEmployee`: group rows by truthy employee identifier,
summarise each bucket, sort by volume descending
(`(a, b) => b.total_first_responses - a.total_first_responses`). -/
def perEmployee (rows : List MetricRow) : List EmpSummary :=
  sortBy (fun a b => decide (b.total_first_responses ≤ a.total_first_responses))
    ((accFold rows []).map summarize)

/-- Part 000 `topEmployees = perEmployee.slice(0, topN)`. -/
def topEmployees (rows : List MetricRow) (topN : Nat) : List EmpSummary :=
  (perEmployee rows).take topN

/-- Part 000 `dateRangeInclusive`: the loop `while (cur <= endISO) push cur;
cur = addDays(cur, 1)` over day indices. -/
def dateRangeInclusive (s e : Int) : List Int :=
  if h : s ≤ e then s :: dateRangeInclusive (s + 1) e else []
termination_by (e + 1 - s).toNat
decreasing_by omega

/-- The number of calendar days from `s` to `e` (zero when `e < s`). -/
def daysBetween (s e : Int) : Nat := (e - s).toNat

/-- Part 000 `days` useMemo: guard `!startDate || !endDate || startDate >
endDate` then `dateRangeInclusive`. -/
def daysList (startDate endDate : Option Int) : List Int :=
  match startDate, endDate with
  | some s, some e => if e < s then [] else dateRangeInclusive s e
  | _, _ => []

/-- The final `dayEmployeeMap[d]?.[email]` lookup of part 000: the map is
built by assignment (`map[d][e] = {...}`), so the last row with that truthy
(date, email) pair wins. -/
def dayEmployeeLast (rows : List MetricRow) (d : Int) (email : String) :
    Option MetricRow :=
  (rows.filter (fun r => r.date == some d && getEmail r == some email)).getLast?

/-- Part 000 `dayEmployeeMap[d]?.[email]?.responses || 0`. -/
def respAt (rows : List MetricRow) (d : Int) (email : String) : Int :=
  match dayEmployeeLast rows d email with
  | some r => cntOf r
  | none => 0

/-- Part 000 `trendData`: one entry per day in the range, carrying, for each
top employee, that employee's response count on the day (0 when absent). -/
def trendData (rows : List MetricRow) (startDate endDate : Option Int)
    (topN : Nat) : List (Int × List (String × Int)) :=
  let topEmails := (topEmployees rows topN).map (fun e => e.employee_email)
  (daysList startDate endDate).map
    (fun d => (d, topEmails.map (fun email => (email, respAt rows d email))))

/-- Outcome of part 000's `load` effect as visible to the UI: the rows state
and the `loadError` message. -/
structure LoadOutcome where
  rows : List MetricRow
  loadError : String
deriving DecidableEq

/-- Part 000 `load`: the guard `!startDate || !endDate || startDate > endDate`
yields no rows and the user-facing "Invalid date range." message; otherwise
the fetched rows are stored.  (`fetched` stands for the successful query
result; query errors are an external concern.) -/
def load (startDate endDate : Option Int) (fetched : List MetricRow) :
    LoadOutcome :=
  match startDate, endDate with
  | some s, some e =>
    if e < s then ⟨[], "Invalid date range."⟩ else ⟨fetched, ""⟩
  | _, _ => ⟨[], "Invalid date range."⟩

/-- Part 000 preset effect: for a numeric preset `n`,
`end = todayISO, start = addDays(end, -(n - 1))`; the guard rejects
`n ≤ 0` (and non-numeric presets) by leaving the dates unchanged (`none`). -/
def presetRange (todayISO : Int) (n : Int) : Option (Int × Int) :=
  if n ≤ 0 then none else some (todayISO - (n - 1), todayISO)

/-- Part 001 preset selector: a number of days or "custom". -/
inductive RangePreset
  | days (n : Nat)
  | custom
deriving DecidableEq

/-- Part 001 `rangeStart`/`rangeEnd` useMemo.  `allDatesDesc` is the list of
distinct row dates sorted descending, so its head is the most recent date
(the anchor).  Presets count back `n - 1` days from the anchor; custom
bounds are normalised so the smaller is the start; a missing custom bound
falls back to the 30-day window. -/
def resolveRange (allDatesDesc : List Int) (preset : RangePreset)
    (customStart customEnd : Option Int) : Option (Int × Int) :=
  match allDatesDesc with
  | [] => none
  | mostRecent :: _ =>
    match preset with
    | .days n => some (mostRecent - ((n : Int) - 1), mostRecent)
    | .custom =>
      match customStart, customEnd with
      | some cs, some ce => if cs ≤ ce then some (cs, ce) else some (ce, cs)
      | _, _ => some (mostRecent - 29, mostRecent)

/-- Part 001 `metricsInRange`: keep the rows whose date satisfies
`r.date >= rangeStart && r.date <= rangeEnd` (a missing date compares
false); no resolved range means no rows. -/
def metricsInRange (rows : List MetricRow) (rangeStart rangeEnd : Option Int) :
    List MetricRow :=
  match rangeStart, rangeEnd with
  | some s, some e =>
    rows.filter (fun r =>
      match r.date with
      | some d => decide (s ≤ d) && decide (d ≤ e)
      | none => false)
  | _, _ => []

/-- Part 001 `avgResponse`: the same volume-weighted average loop as part
000, with the `"—"` sentinel as `none`. -/
def avgResponse (rows : List MetricRow) : Option ℚ :=
  let w := weightedLoop rows 0 0
  if 0 < w.2 then some (round1 (w.1 / (w.2 : ℚ))) else none

/-- Part 001 `slaPercent`: sentinel when `totalResponses <= 0`, otherwise the
rounded percentage clamped to `[0, 100]`. -/
def slaPercentOf (rows : List MetricRow) : Option Int :=
  let totalResponses := totalResponsesOf rows
  let totalBreaches := totalBreachesOf rows
  if totalResponses ≤ 0 then none
  else
    some (clamp (jround (((totalResponses : ℚ) - (totalBreaches : ℚ)) /
      (totalResponses : ℚ) * 100)) 0 100)

/-- One point of part 001's `dailyTrend`. -/
structure DayPoint where
  date : Int
  total_first_responses : Int
  sla_breaches : Int
deriving DecidableEq

/-- Add one row to the per-day accumulator of `dailyTrend` (new dates are
appended, matching JS object key insertion order). -/
def dtInsert : List DayPoint → Int → MetricRow → List DayPoint
  | [], d, r => [⟨d, cntOf r, brOf r⟩]
  | p :: ps, d, r =>
    if p.date == d then
      ⟨p.date, p.total_first_responses + cntOf r, p.sla_breaches + brOf r⟩ :: ps
    else p :: dtInsert ps d r

/-- The grouping loop of part 001's `dailyTrend` (rows with a falsy date are
skipped). -/
def dtFold : List MetricRow → List DayPoint → List DayPoint
  | [], acc => acc
  | r :: rs, acc =>
    match r.date with
    | none => dtFold rs acc
    | some d => dtFold rs (dtInsert acc d r)

/-- Part 001 `dailyTrend`: per-day team totals over the rows in range, sorted
ascending by date (`a.date.localeCompare(b.date)`).  Note: it only contains
the dates that actually occur in the rows. -/
def dailyTrend (rows : List MetricRow) : List DayPoint :=
  sortBy (fun a b => decide (a.date ≤ b.date)) (dtFold rows [])

/-- Part 000 `heatStyle` intensity: `heatMax > 0 ? v / heatMax : 0`. -/
def heatIntensity (v heatMax : Int) : ℚ :=
  if 0 < heatMax then (v : ℚ) / (heatMax : ℚ) else 0

/-! CSV serialisation (part 000 `toCSV` / part 001 `csvEscape`). -/

/-- Characters that force quoting: the regex `/[",\n]/`. -/
def isCsvSpecial (c : Char) : Bool := c == '"' || c == ',' || c == '\n'

/-- JS `s.replace(/"/g, String.fromCharCode(34, 34))`: double every quote. -/
def dupQuotes : List Char → List Char
  | [] => []
  | c :: cs => if c == '"' then '"' :: '"' :: dupQuotes cs else c :: dupQuotes cs

/-- The field escaper shared by both variants: wrap in quotes, doubling
embedded quotes, exactly when the value contains a quote, comma or
newline. -/
def csvEscape (s : String) : String :=
  if s.data.any isCsvSpecial then String.mk ('"' :: (dupQuotes s.data ++ ['"']))
  else s

/-- The `esc` of part 000's `toCSV`: `null`/`undefined` serialise as the
empty string.  Cell values are modelled already stringified (JS applies
`String(v)`). -/
def esc (v : Option String) : String :=
  match v with
  | none => ""
  | some s => csvEscape s

/-- JS `Array.prototype.join(sep)`. -/
def joinSep (sep : String) : List String → String
  | [] => ""
  | [x] => x
  | x :: y :: xs => x ++ (sep ++ joinSep sep (y :: xs))

/-- Part 000 `toCSV(rows, headers)`: the escaped header line followed by one
escaped line per row, joined by newlines.  A row is a finite map from
column label to optional cell value. -/
def toCSV (rows : List (String → Option String)) (headers : List String) :
    String :=
  joinSep ("\n")
    ((joinSep (",") (headers.map csvEscape)) ::
      rows.map (fun r => joinSep (",") (headers.map (fun h => esc (r h)))))

/-- State of the reference CSV reader: outside quotes, inside quotes, or
just after a quote inside a quoted field. -/
inductive CsvMode
  | plain
  | quoted
  | quoteSeen
deriving DecidableEq

/-- Reference CSV reader ("split on commas and newlines honouring quoted
fields"): accumulates the current field (reversed), the fields of the
current record (reversed) and the completed records (reversed). -/
def csvParseAux : CsvMode → List Char → List Char → List String →
    List (List String) → List (List String)
  | _, [], cur, flds, recs =>
    ((String.mk cur.reverse :: flds).reverse :: recs).reverse
  | mode, c :: cs, cur, flds, recs =>
    match mode with
    | .plain =>
      if c == '"' then csvParseAux .quoted cs cur flds recs
      else if c == ',' then
        csvParseAux .plain cs [] (String.mk cur.reverse :: flds) recs
      else if c == '\n' then
        csvParseAux .plain cs [] []
          ((String.mk cur.reverse :: flds).reverse :: recs)
      else csvParseAux .plain cs (c :: cur) flds recs
    | .quoted =>
      if c == '"' then csvParseAux .quoteSeen cs cur flds recs
      else csvParseAux .quoted cs (c :: cur) flds recs
    | .quoteSeen =>
      if c == '"' then csvParseAux .quoted cs ('"' :: cur) flds recs
      else if c == ',' then
        csvParseAux .plain cs [] (String.mk cur.reverse :: flds) recs
      else if c == '\n' then
        csvParseAux .plain cs [] []
          ((String.mk cur.reverse :: flds).reverse :: recs)
      else csvParseAux .plain cs (c :: cur) flds recs

/-- Parse a whole CSV text into records of fields. -/
def parseCSV (text : String) : List (List String) :=
  csvParseAux .plain text.data [] [] []

/-! Spec-side formulas (written from the specification's words, for
comparison with the source-derived definitions). -/

/-- Rows that qualify for the weighted average: `avgResponseMinutes`
present and `count > 0` (spec, section 4.3). -/
def qualifyingRows (rows : List MetricRow) : List MetricRow :=
  rows.filter (fun r =>
    r.avg_first_response_minutes.isSome && decide (0 < cntOf r))

/-- Spec numerator `Σ (avg_i × count_i)` over the qualifying rows. -/
def weightedNum (rows : List MetricRow) : ℚ :=
  ((qualifyingRows rows).map
    (fun r => r.avg_first_response_minutes.getD 0 * (cntOf r : ℚ))).sum

/-- Spec denominator `Σ count_i` over the qualifying rows. -/
def weightedDen (rows : List MetricRow) : Int :=
  ((qualifyingRows rows).map cntOf).sum

/-! Instrumented (`Except`) variants: division is treated as fallible so
that totality of the aggregators is a provable statement. -/

/-- Division instrumented to fail on a zero denominator. -/
def qdiv (a b : ℚ) : Except String ℚ :=
  if b = 0 then .error ("division by zero") else .ok (a / b)

/-- Instrumented part 000 `totals`. -/
def totalsE (rows : List MetricRow) : Except String Totals := do
  let totalResponses := totalResponsesOf rows
  let totalBreaches := totalBreachesOf rows
  let w := weightedLoop rows 0 0
  let avgMinutes ←
    if 0 < w.2 then do
      let q ← qdiv w.1 (w.2 : ℚ)
      pure (some (round1 q))
    else pure none
  let slaPercent ←
    if 0 < totalResponses then do
      let q ← qdiv ((totalResponses : ℚ) - (totalBreaches : ℚ))
        (totalResponses : ℚ)
      pure (some (jround (q * 100)))
    else pure none
  pure ⟨totalResponses, totalBreaches, avgMinutes, slaPercent⟩

/-- Instrumented `summarize`. -/
def summarizeE (e : EmpAcc) : Except String EmpSummary := do
  let avg_response ←
    if 0 < e.total_first_responses then do
      let q ← qdiv e.weighted (e.total_first_responses : ℚ)
      pure (some (round1 q))
    else pure none
  let sla_percent ←
    if 0 < e.total_first_responses then do
      let q ← qdiv ((e.total_first_responses : ℚ) - (e.sla_breaches : ℚ))
        (e.total_first_responses : ℚ)
      pure (some (jround (q * 100)))
    else pure none
  pure ⟨e.employee_email, e.total_first_responses, e.sla_breaches,
    avg_response, sla_percent⟩

/-- Effectful map used by the instrumented per-employee pipeline. -/
def mapME {α β : Type} (f : α → Except String β) :
    List α → Except String (List β)
  | [] => .ok []
  | a :: as => do
    let b ← f a
    let bs ← mapME f as
    pure (b :: bs)

/-- Instrumented part 000 `perEmployee`. -/
def perEmployeeE (rows : List MetricRow) : Except String (List EmpSummary) := do
  let out ← mapME summarizeE (accFold rows [])
  pure (sortBy
    (fun a b => decide (b.total_first_responses ≤ a.total_first_responses)) out)

/-- Instrumented part 001 `avgResponse`. -/
def avgResponseE (rows : List MetricRow) : Except String (Option ℚ) := do
  let w := weightedLoop rows 0 0
  if 0 < w.2 then do
    let q ← qdiv w.1 (w.2 : ℚ)
    pure (some (round1 q))
  else pure none

/-- Instrumented part 001 `slaPercent`. -/
def slaPercentOfE (rows : List MetricRow) : Except String (Option Int) := do
  let totalResponses := totalResponsesOf rows
  let totalBreaches := totalBreachesOf rows
  if totalResponses ≤ 0 then pure none
  else do
    let q ← qdiv ((totalResponses : ℚ) - (totalBreaches : ℚ))
      (totalResponses : ℚ)
    pure (some (clamp (jround (q * 100)) 0 100))

/-- Instrumented heatmap intensity. -/
def heatIntensityE (v heatMax : Int) : Except String ℚ :=
  if 0 < heatMax then qdiv (v : ℚ) (heatMax : ℚ) else .ok 0

/-! Concrete rows used by counterexamples and witnesses. -/

/-- A row with five responses but no employee identifier. -/
def ghostRow : MetricRow := ⟨some 0, none, some 5, none, some 1⟩

/-- A single row on day 2 (inside the three-day range 1..3). -/
def midRow : MetricRow := ⟨some 2, some ("a"), some 1, none, some 0⟩

/-- First example row of the spec's worked example. -/
def exRow1 : MetricRow := ⟨some 0, some ("a"), some 10, some 5, some 2⟩

/-- Second example row of the spec's worked example. -/
def exRow2 : MetricRow := ⟨some 0, some ("b"), some 5, some 20, some 1⟩

/-! Character-list views of the CSV serialisation, used to reason about the
round trip. -/

/-- List-of-characters version of `joinSep`. -/
def listJoin (sep : List Char) : List (List Char) → List Char
  | [] => []
  | [x] => x
  | x :: y :: xs => x ++ sep ++ listJoin sep (y :: xs)

/-- Characters of one escaped field. -/
def serFieldData (f : String) : List Char := (csvEscape f).data

/-- Characters of one serialised record: escaped fields joined by commas. -/
def serRecData (fields : List String) : List Char :=
  listJoin [','] (fields.map serFieldData)

/-- Characters of a serialised table: records joined by newlines. -/
def serFileData (records : List (List String)) : List Char :=
  listJoin ['\n'] (records.map serRecData)

/-- The table of original (pre-escaping) cell values that
`toCSV rows headers` serialises: the header record followed by one record
per row, with missing cells as the empty string. -/
def csvTable (rows : List (String → Option String)) (headers : List String) :
    List (List String) :=
  headers :: rows.map (fun r => headers.map (fun h => (r h).getD ""))

/-- A row whose first cell contains a comma, a quote and a newline and whose
second cell is missing. -/
def trickyRow : String → Option String := fun h =>
  if h = "a" then some ("x,\"y\nz") else none

/-! Helper lemmas about sums and the grouping pipeline. -/

theorem foldl_add_eq (f : MetricRow → Int) (rows : List MetricRow) (a : Int) :
    rows.foldl (fun sum r => sum + f r) a = a + (rows.map f).sum := by
  induction rows generalizing a with
  | nil => simp
  | cons r rs ih => simp [ih, add_assoc]

theorem totalResponsesOf_eq (rows : List MetricRow) :
    totalResponsesOf rows = (rows.map cntOf).sum := by
  simp [totalResponsesOf, foldl_add_eq]

theorem totalBreachesOf_eq (rows : List MetricRow) :
    totalBreachesOf rows = (rows.map brOf).sum := by
  simp [totalBreachesOf, foldl_add_eq]

theorem sum_split (p : MetricRow → Bool) (f : MetricRow → Int)
    (rows : List MetricRow) :
    (rows.map f).sum =
      ((rows.filter p).map f).sum +
        ((rows.filter (fun r => !(p r))).map f).sum := by
  induction rows with
  | nil => simp
  | cons r rs ih =>
    cases hp : p r <;> simp [List.filter_cons, hp, ih] <;> ring

theorem emailOk_eq (r : MetricRow) : emailOk r = (getEmail r).isSome := by
  unfold emailOk getEmail
  cases r.employee_email with
  | none => rfl
  | some s => cases h : s.isEmpty <;> simp [h]

theorem insertBy_perm {α : Type} (le : α → α → Bool) (a : α) (l : List α) :
    (insertBy le a l).Perm (a :: l) := by
  induction l with
  | nil => simp [insertBy]
  | cons b bs ih =>
    simp only [insertBy]
    split
    · exact List.Perm.refl _
    · exact ((ih.cons b).trans (List.Perm.swap a b bs))

theorem sortBy_perm {α : Type} (le : α → α → Bool) (l : List α) :
    (sortBy le l).Perm l := by
  induction l with
  | nil => simp [sortBy]
  | cons a as ih =>
    exact (insertBy_perm le a (sortBy le as)).trans (ih.cons a)

theorem insertUpd_sum (acc : List EmpAcc) (email : String) (r : MetricRow) :
    ((insertUpd acc email r).map (fun a => a.total_first_responses)).sum =
      (acc.map (fun a => a.total_first_responses)).sum + cntOf r := by
  induction acc with
  | nil => simp [insertUpd, updAcc]
  | cons a as ih =>
    by_cases h : a.employee_email == email
    · simp [insertUpd, h, updAcc]
      ring
    · simp [insertUpd, h, ih]
      ring

theorem accFold_sum (rows : List MetricRow) :
    ∀ acc : List EmpAcc,
      ((accFold rows acc).map (fun a => a.total_first_responses)).sum =
        (acc.map (fun a => a.total_first_responses)).sum +
          ((rows.filter emailOk).map cntOf).sum := by
  induction rows with
  | nil => intro acc; simp [accFold]
  | cons r rs ih =>
    intro acc
    cases hge : getEmail r with
    | none =>
      have he : emailOk r = false := by simp [emailOk_eq, hge]
      simp [accFold, hge, List.filter_cons, he, ih]
    | some email =>
      have he : emailOk r = true := by simp [emailOk_eq, hge]
      simp [accFold, hge, List.filter_cons, he, ih, insertUpd_sum]
      ring

theorem perEmployee_sum (rows : List MetricRow) :
    ((perEmployee rows).map (fun s => s.total_first_responses)).sum =
      ((rows.filter emailOk).map cntOf).sum := by
  unfold perEmployee
  have hperm :=
    (sortBy_perm
      (fun a b : EmpSummary =>
        decide (b.total_first_responses ≤ a.total_first_responses))
      ((accFold rows []).map summarize)).map
      (fun s => s.total_first_responses)
  rw [hperm.sum_eq, List.map_map]
  have hsm : ((accFold rows []).map
      ((fun s : EmpSummary => s.total_first_responses) ∘ summarize)) =
      (accFold rows []).map (fun a => a.total_first_responses) := by
    apply List.map_congr_left
    intro a _
    simp [summarize]
  rw [hsm, accFold_sum rows []]
  simp

/-- Claim C1 (amended): for every non-empty filtered row set in which every
row carries a truthy employee identifier, the team total responses equal
the sum of the `responses` fields over the per-employee summaries built
from the same rows.  (Rows without an identifier break the equality: they
enter the team total but are skipped by `perEmployee`; see the
counterexample.) -/
theorem teamTotal_eq_sum_perEmployee (rows : List Dashboard.MetricRow)
    (hne : rows ≠ []) (hall : ∀ r ∈ rows, Dashboard.emailOk r = true) :
    (Dashboard.totals rows).totalResponses =
      ((Dashboard.perEmployee rows).map
        (fun s => s.total_first_responses)).sum := by
  have hfilter : rows.filter Dashboard.emailOk = rows :=
    List.filter_eq_self.mpr hall
  rw [Dashboard.perEmployee_sum, hfilter]
  simp [Dashboard.totals, Dashboard.totalResponsesOf_eq]

/-- Claim C1, counterexample: a single-row (hence non-empty) row set whose
row has no employee identifier; the team total is 5 but the per-employee
summaries are empty, so their responses sum to 0. -/
theorem teamTotal_sum_perEmployee_cex :
    [Dashboard.ghostRow] ≠ ([] : List Dashboard.MetricRow) ∧
    (Dashboard.totals [Dashboard.ghostRow]).totalResponses ≠
      ((Dashboard.perEmployee [Dashboard.ghostRow]).map
        (fun s => s.total_first_responses)).sum := by
  constructor
  · simp
  · simp [Dashboard.totals, Dashboard.totalResponsesOf, Dashboard.perEmployee,
      Dashboard.accFold, Dashboard.getEmail, Dashboard.ghostRow,
      Dashboard.cntOf, Dashboard.sortBy]

/-- Claim C1, witness for the amended theorem: on the spec's two-row example
(both rows carry identifiers) the equality holds. -/
theorem teamTotal_eq_sum_perEmployee_witness :
    (Dashboard.totals [Dashboard.exRow1, Dashboard.exRow2]).totalResponses =
      ((Dashboard.perEmployee [Dashboard.exRow1, Dashboard.exRow2]).map
        (fun s => s.total_first_responses)).sum :=
  teamTotal_eq_sum_perEmployee [Dashboard.exRow1, Dashboard.exRow2]
    (by simp)
    (by
      intro r hr
      simp [Dashboard.exRow1, Dashboard.exRow2] at hr
      rcases hr with h | h <;> subst h <;> rfl)

/-- Claim C4: on the spec's worked two-row example the aggregator returns
team totals with 15 responses, 3 breaches, weighted average 10.0 minutes
and SLA percentage 80. -/
theorem totals_example_two_rows :
    Dashboard.totals [Dashboard.exRow1, Dashboard.exRow2] =
      ⟨15, 3, some 10, some 80⟩ := by
  norm_num [Dashboard.totals, Dashboard.totalResponsesOf,
    Dashboard.totalBreachesOf, Dashboard.weightedLoop, Dashboard.exRow1,
    Dashboard.exRow2, Dashboard.cntOf, Dashboard.brOf, Dashboard.round1,
    Dashboard.jround, Dashboard.Totals.mk.injEq]

/-- Claim C10: rows with a missing or empty employee identifier are counted
in the team totals but skipped by the per-employee grouping, so the team
responses total decomposes as the per-employee sum plus the contribution
of the identifier-less rows; on a concrete identifier-less row the team
total strictly exceeds the per-employee sum. -/
theorem emailless_rows_in_totals_only :
    (∀ rows : List Dashboard.MetricRow,
      (Dashboard.totals rows).totalResponses =
        ((Dashboard.perEmployee rows).map
          (fun s => s.total_first_responses)).sum +
          ((rows.filter (fun r => !(Dashboard.emailOk r))).map
            Dashboard.cntOf).sum) ∧
    ((Dashboard.perEmployee [Dashboard.ghostRow]).map
      (fun s => s.total_first_responses)).sum <
      (Dashboard.totals [Dashboard.ghostRow]).totalResponses := by
  constructor
  · intro rows
    rw [Dashboard.perEmployee_sum]
    show Dashboard.totalResponsesOf rows = _
    rw [Dashboard.totalResponsesOf_eq,
      Dashboard.sum_split Dashboard.emailOk Dashboard.cntOf]
  · simp [Dashboard.totals, Dashboard.totalResponsesOf, Dashboard.perEmployee,
      Dashboard.accFold, Dashboard.getEmail, Dashboard.ghostRow,
      Dashboard.cntOf, Dashboard.sortBy]

theorem jround_bounds {q : ℚ} (h0 : 0 ≤ q) (h1 : q ≤ 100) :
    0 ≤ jround q ∧ jround q ≤ 100 := by
  unfold jround
  constructor
  · apply Int.le_floor.mpr
    push_cast
    linarith
  · have hlt : (⌊q + 1/2⌋ : Int) < 101 := by
      apply Int.floor_lt.mpr
      push_cast
      linarith
    omega

theorem clamp_bounds (n : Int) : 0 ≤ clamp n 0 100 ∧ clamp n 0 100 ≤ 100 := by
  unfold clamp
  exact ⟨le_max_left 0 _, max_le (by norm_num) (min_le_left _ _)⟩

theorem wf_sum_bounds (rows : List MetricRow) (h : ∀ r ∈ rows, WFRow r) :
    0 ≤ (rows.map brOf).sum ∧ (rows.map brOf).sum ≤ (rows.map cntOf).sum := by
  induction rows with
  | nil => simp
  | cons r rs ih =>
    obtain ⟨h1, h2, h3⟩ := h r (by simp)
    have ihh := ih (fun x hx => h x (by simp [hx]))
    constructor <;> simp <;> linarith [ihh.1, ihh.2]

theorem slaRatio_bounds {tr tb : Int} (htr : 0 < tr) (hb0 : 0 ≤ tb)
    (hbt : tb ≤ tr) :
    0 ≤ ((tr : ℚ) - (tb : ℚ)) / (tr : ℚ) * 100 ∧
      ((tr : ℚ) - (tb : ℚ)) / (tr : ℚ) * 100 ≤ 100 := by
  have htrq : (0 : ℚ) < (tr : ℚ) := by exact_mod_cast htr
  have hbtq : (tb : ℚ) ≤ (tr : ℚ) := by exact_mod_cast hbt
  have hb0q : (0 : ℚ) ≤ (tb : ℚ) := by exact_mod_cast hb0
  constructor
  · apply mul_nonneg _ (by norm_num)
    apply div_nonneg _ (le_of_lt htrq)
    linarith
  · have h1 : ((tr : ℚ) - (tb : ℚ)) / (tr : ℚ) ≤ 1 := by
      rw [div_le_one htrq]
      linarith
    linarith

/-- Claim C2: whenever the aggregated responses count is positive, the
computed SLA percentage lies in `[0, 100]`.  Part 001's `slaPercent` clamps
and needs no assumption beyond positive responses; part 000's `totals` does
not clamp, and the bound holds for row sets satisfying the spec's data
model (per-row `0 ≤ breaches ≤ responses`). -/
theorem slaPercent_mem_range :
    (∀ rows : List Dashboard.MetricRow,
      0 < Dashboard.totalResponsesOf rows →
      ∃ p, Dashboard.slaPercentOf rows = some p ∧ 0 ≤ p ∧ p ≤ 100) ∧
    (∀ rows : List Dashboard.MetricRow, (∀ r ∈ rows, Dashboard.WFRow r) →
      0 < (Dashboard.totals rows).totalResponses →
      ∃ p, (Dashboard.totals rows).slaPercent = some p ∧ 0 ≤ p ∧ p ≤ 100) := by
  constructor
  · intro rows htr
    simp only [Dashboard.slaPercentOf]
    rw [if_neg (by omega : ¬ Dashboard.totalResponsesOf rows ≤ 0)]
    exact ⟨_, rfl, Dashboard.clamp_bounds _⟩
  · intro rows hwf htr
    have htr' : 0 < Dashboard.totalResponsesOf rows := htr
    have hb := Dashboard.wf_sum_bounds rows hwf
    have htreq := Dashboard.totalResponsesOf_eq rows
    have htbeq := Dashboard.totalBreachesOf_eq rows
    have hb0 : 0 ≤ Dashboard.totalBreachesOf rows := by
      rw [htbeq]
      exact hb.1
    have hbt : Dashboard.totalBreachesOf rows ≤
        Dashboard.totalResponsesOf rows := by
      rw [htbeq, htreq]
      exact hb.2
    have hrange := Dashboard.slaRatio_bounds htr' hb0 hbt
    have hj := Dashboard.jround_bounds hrange.1 hrange.2
    refine ⟨_, ?_, hj⟩
    simp only [Dashboard.totals]
    rw [if_pos htr']

/-- Claim C2, witness: the spec's two-row example has positive responses,
well-formed rows, and yields an SLA percentage inside `[0, 100]`. -/
theorem slaPercent_mem_range_witness :
    ∃ p, (Dashboard.totals [Dashboard.exRow1, Dashboard.exRow2]).slaPercent =
      some p ∧ 0 ≤ p ∧ p ≤ 100 :=
  slaPercent_mem_range.2 [Dashboard.exRow1, Dashboard.exRow2]
    (by
      intro r hr
      simp [Dashboard.exRow1, Dashboard.exRow2] at hr
      rcases hr with h | h <;> subst h <;>
        exact ⟨by decide, by decide, by decide⟩)
    (by decide)

theorem weightedLoop_eq (rows : List MetricRow) :
    ∀ (t : ℚ) (c : Int),
      weightedLoop rows t c = (t + weightedNum rows, c + weightedDen rows) := by
  induction rows with
  | nil =>
    intro t c
    simp [weightedLoop, weightedNum, weightedDen, qualifyingRows]
  | cons r rs ih =>
    intro t c
    cases ha : r.avg_first_response_minutes with
    | none =>
      simp [weightedLoop, ha, ih, weightedNum, weightedDen, qualifyingRows,
        List.filter_cons]
    | some avg =>
      by_cases hc : 0 < cntOf r
      · simp [weightedLoop, ha, hc, ih, weightedNum, weightedDen,
          qualifyingRows, List.filter_cons]
        constructor <;> ring
      · simp [weightedLoop, ha, hc, ih, weightedNum, weightedDen,
          qualifyingRows, List.filter_cons]

/-- Claim C5: the team weighted average equals
`Σ (avg_i × count_i) / Σ count_i` over exactly the rows with a present
average and positive count, rounded to one decimal; with an empty
denominator both variants return the `"—"` sentinel (`none`), which is
distinct from `0`.  Holds for part 000 `totals.avgMinutes` and part 001
`avgResponse`. -/
theorem avgMinutes_weighted_formula :
    ∀ rows : List Dashboard.MetricRow,
      (0 < Dashboard.weightedDen rows →
        (Dashboard.totals rows).avgMinutes =
          some (Dashboard.round1
            (Dashboard.weightedNum rows / (Dashboard.weightedDen rows : ℚ))) ∧
        Dashboard.avgResponse rows =
          some (Dashboard.round1
            (Dashboard.weightedNum rows / (Dashboard.weightedDen rows : ℚ)))) ∧
      (Dashboard.weightedDen rows = 0 →
        (Dashboard.totals rows).avgMinutes = none ∧
        Dashboard.avgResponse rows = none ∧
        (Dashboard.totals rows).avgMinutes ≠ some 0) := by
  intro rows
  have hwl := Dashboard.weightedLoop_eq rows 0 0
  constructor
  · intro hd
    constructor <;> simp [Dashboard.totals, Dashboard.avgResponse, hwl, hd]
  · intro hd
    refine ⟨?_, ?_, ?_⟩ <;>
      simp [Dashboard.totals, Dashboard.avgResponse, hwl, hd]

/-- Claim C5, witness: on a single qualifying row the denominator is
positive and both variants return the rounded weighted average. -/
theorem avgMinutes_weighted_formula_witness :
    (Dashboard.totals [Dashboard.exRow1]).avgMinutes =
      some (Dashboard.round1
        (Dashboard.weightedNum [Dashboard.exRow1] /
          (Dashboard.weightedDen [Dashboard.exRow1] : ℚ))) ∧
    Dashboard.avgResponse [Dashboard.exRow1] =
      some (Dashboard.round1
        (Dashboard.weightedNum [Dashboard.exRow1] /
          (Dashboard.weightedDen [Dashboard.exRow1] : ℚ))) :=
  (avgMinutes_weighted_formula [Dashboard.exRow1]).1 (by decide)

/-- Claim C6: with data loaded (the anchor is the most recent date), a
preset of `N ≥ 1` days resolves to `end = anchor`, `start = anchor − (N−1)`
(both in part 001's resolver and in part 000's preset effect); custom
bounds are normalised so the smaller is the start; a missing custom bound
falls back to the 30-day window `anchor − 29 .. anchor`; and every resolved
range satisfies `start ≤ end`. -/
theorem range_resolver_correct :
    (∀ (anchor : Int) (rest : List Int) (n : Nat)
        (customStart customEnd : Option Int), 1 ≤ n →
      Dashboard.resolveRange (anchor :: rest) (.days n) customStart customEnd =
        some (anchor - ((n : Int) - 1), anchor)) ∧
    (∀ (anchor : Int) (rest : List Int) (cs ce : Int),
      Dashboard.resolveRange (anchor :: rest) .custom (some cs) (some ce) =
        some (min cs ce, max cs ce)) ∧
    (∀ (anchor : Int) (rest : List Int) (ce : Option Int),
      Dashboard.resolveRange (anchor :: rest) .custom none ce =
        some (anchor - 29, anchor)) ∧
    (∀ (anchor : Int) (rest : List Int) (cs : Option Int),
      Dashboard.resolveRange (anchor :: rest) .custom cs none =
        some (anchor - 29, anchor)) ∧
    (∀ (today n : Int), 1 ≤ n →
      Dashboard.presetRange today n = some (today - (n - 1), today)) ∧
    (∀ (dates : List Int) (preset : Dashboard.RangePreset)
        (cs ce : Option Int) (s e : Int),
      (∀ n, preset = .days n → 1 ≤ n) →
      Dashboard.resolveRange dates preset cs ce = some (s, e) → s ≤ e) ∧
    (∀ (today n s e : Int),
      Dashboard.presetRange today n = some (s, e) → s ≤ e) := by
  refine ⟨?_, ?_, ?_, ?_, ?_, ?_, ?_⟩
  · intro anchor rest n customStart customEnd hn
    rfl
  · intro anchor rest cs ce
    simp only [Dashboard.resolveRange]
    split
    · rename_i h
      simp [min_eq_left h, max_eq_right h]
    · rename_i h
      simp only [Option.some.injEq, Prod.mk.injEq]
      omega
  · intro anchor rest ce
    cases ce <;> rfl
  · intro anchor rest cs
    cases cs <;> rfl
  · intro today n hn
    simp [Dashboard.presetRange]
    omega
  · intro dates preset cs ce s e hpre hres
    cases dates with
    | nil => simp [Dashboard.resolveRange] at hres
    | cons anchor rest =>
      cases preset with
      | days n =>
        have hn := hpre n rfl
        simp only [Dashboard.resolveRange, Option.some.injEq,
          Prod.mk.injEq] at hres
        omega
      | custom =>
        cases cs with
        | none =>
          cases ce <;>
            (simp only [Dashboard.resolveRange, Option.some.injEq,
              Prod.mk.injEq] at hres; omega)
        | some c1 =>
          cases ce with
          | none =>
            simp only [Dashboard.resolveRange, Option.some.injEq,
              Prod.mk.injEq] at hres
            omega
          | some c2 =>
            simp only [Dashboard.resolveRange] at hres
            split at hres <;>
              (simp only [Option.some.injEq, Prod.mk.injEq] at hres; omega)
  · intro today n s e hres
    simp only [Dashboard.presetRange] at hres
    split at hres
    · simp at hres
    · simp only [Option.some.injEq, Prod.mk.injEq] at hres
      omega

/-- Claim C6, witness: a 7-day preset anchored at day 100 resolves to the
inclusive window 94..100. -/
theorem range_resolver_correct_witness :
    Dashboard.resolveRange [100] (.days 7) none none = some (94, 100) := by
  have h := range_resolver_correct.1 100 [] 7 none none (by norm_num)
  rw [h]
  norm_num

/-- Claim C7: the row filter keeps exactly the rows whose date lies in
`[start, end]` (embedded order of the ISO date strings); an inverted range
filters to the empty row set; and part 000's load guard reacts to an
inverted range with no rows and the user-facing "Invalid date range."
message instead of failing. -/
theorem row_filter_correct :
    (∀ (rows : List Dashboard.MetricRow) (s e : Int)
        (r : Dashboard.MetricRow),
      r ∈ Dashboard.metricsInRange rows (some s) (some e) ↔
        r ∈ rows ∧ ∃ d, r.date = some d ∧ s ≤ d ∧ d ≤ e) ∧
    (∀ (rows : List Dashboard.MetricRow) (s e : Int), e < s →
      Dashboard.metricsInRange rows (some s) (some e) = []) ∧
    (∀ (s e : Int) (fetched : List Dashboard.MetricRow), e < s →
      Dashboard.load (some s) (some e) fetched =
        ⟨[], "Invalid date range."⟩) := by
  refine ⟨?_, ?_, ?_⟩
  · intro rows s e r
    simp only [Dashboard.metricsInRange, List.mem_filter]
    constructor
    · rintro ⟨hm, hp⟩
      refine ⟨hm, ?_⟩
      cases hd : r.date with
      | none => rw [hd] at hp; simp at hp
      | some d =>
        rw [hd] at hp
        simp only [Bool.and_eq_true, decide_eq_true_eq] at hp
        exact ⟨d, rfl, hp.1, hp.2⟩
    · rintro ⟨hm, d, hd, h1, h2⟩
      refine ⟨hm, ?_⟩
      rw [hd]
      simp [h1, h2]
  · intro rows s e h
    simp only [Dashboard.metricsInRange]
    apply List.filter_eq_nil_iff.mpr
    intro r hr
    cases hd : r.date <;> simp [hd] <;> omega
  · intro s e fetched h
    simp [Dashboard.load, h]

/-- Claim C7, witness: with the inverted range 5..3 the filter yields no
rows and the load guard reports the invalid-range message. -/
theorem row_filter_correct_witness :
    Dashboard.metricsInRange [Dashboard.midRow] (some 5) (some 3) = [] ∧
    Dashboard.load (some 5) (some 3) [Dashboard.midRow] =
      ⟨[], "Invalid date range."⟩ :=
  ⟨row_filter_correct.2.1 [Dashboard.midRow] 5 3 (by norm_num),
   row_filter_correct.2.2 5 3 [Dashboard.midRow] (by norm_num)⟩

theorem dateRangeInclusive_eq (s e : Int) :
    dateRangeInclusive s e =
      if s ≤ e then s :: dateRangeInclusive (s + 1) e else [] := by
  rw [dateRangeInclusive]
  split <;> rfl

theorem dateRangeInclusive_len :
    ∀ (n : Nat) (s e : Int), (e - s).toNat = n → s ≤ e →
      (dateRangeInclusive s e).length = n + 1 := by
  intro n
  induction n with
  | zero =>
    intro s e hn hse
    rw [dateRangeInclusive_eq, if_pos hse, dateRangeInclusive_eq,
      if_neg (by omega : ¬ s + 1 ≤ e)]
    rfl
  | succ k ih =>
    intro s e hn hse
    rw [dateRangeInclusive_eq, if_pos hse]
    simp [ih (s + 1) e (by omega) (by omega)]

theorem dateRangeInclusive_mem :
    ∀ (n : Nat) (s e d : Int), (e + 1 - s).toNat = n →
      (d ∈ dateRangeInclusive s e ↔ s ≤ d ∧ d ≤ e) := by
  intro n
  induction n with
  | zero =>
    intro s e d hn
    rw [dateRangeInclusive_eq, if_neg (by omega : ¬ s ≤ e)]
    simp
    omega
  | succ k ih =>
    intro s e d hn
    rw [dateRangeInclusive_eq, if_pos (by omega : s ≤ e)]
    rw [List.mem_cons, ih (s + 1) e d (by omega)]
    omega

theorem dateRangeInclusive_chain :
    ∀ (n : Nat) (s e : Int), (e + 1 - s).toNat = n →
      List.Chain' (· < ·) (dateRangeInclusive s e) := by
  intro n
  induction n with
  | zero =>
    intro s e hn
    rw [dateRangeInclusive_eq, if_neg (by omega : ¬ s ≤ e)]
    exact List.chain'_nil
  | succ k ih =>
    intro s e hn
    rw [dateRangeInclusive_eq]
    split
    · rename_i hse
      apply List.chain'_cons'.mpr
      refine ⟨?_, ih (s + 1) e (by omega)⟩
      intro b hb
      rw [dateRangeInclusive_eq] at hb
      by_cases h2 : s + 1 ≤ e
      · rw [if_pos h2] at hb
        simp at hb
        omega
      · rw [if_neg h2] at hb
        simp at hb
    · exact List.chain'_nil

theorem respAt_eq_zero (rows : List MetricRow) (d : Int) (email : String)
    (h : ∀ r ∈ rows, r.date ≠ some d) : respAt rows d email = 0 := by
  unfold respAt dayEmployeeLast
  have hnil : rows.filter
      (fun r => r.date == some d && getEmail r == some email) = [] := by
    apply List.filter_eq_nil_iff.mpr
    intro r hr
    simp only [Bool.and_eq_true, beq_iff_eq, not_and]
    intro h1
    exact absurd h1 (h r hr)
  rw [hnil]
  rfl

theorem dtInsert_dates (d : Int) (r : MetricRow) :
    ∀ (acc : List DayPoint) (x : Int),
      x ∈ (dtInsert acc d r).map (fun p => p.date) →
        x = d ∨ x ∈ acc.map (fun p => p.date) := by
  intro acc
  induction acc with
  | nil =>
    intro x hx
    simp [dtInsert] at hx
    exact Or.inl hx
  | cons a as ih =>
    intro x hx
    simp only [dtInsert] at hx
    by_cases h : a.date == d
    · rw [if_pos h] at hx
      simp only [List.map_cons, List.mem_cons] at hx
      rcases hx with hx | hx
      · right; simp [hx]
      · right; simp [hx]
    · rw [if_neg h] at hx
      simp only [List.map_cons, List.mem_cons] at hx
      rcases hx with hx | hx
      · right; simp [hx]
      · rcases ih x hx with hx | hx
        · exact Or.inl hx
        · right; simp [hx]

theorem dtFold_dates (rows : List MetricRow) :
    ∀ (acc : List DayPoint), ∀ p ∈ dtFold rows acc,
      p.date ∈ acc.map (fun x => x.date) ∨
        ∃ r ∈ rows, r.date = some p.date := by
  induction rows with
  | nil =>
    intro acc p hp
    exact Or.inl (List.mem_map_of_mem _ hp)
  | cons r rs ih =>
    intro acc p hp
    cases hd : r.date with
    | none =>
      rw [dtFold, hd] at hp
      rcases ih acc p hp with h | ⟨r2, hr2, hr2d⟩
      · exact Or.inl h
      · exact Or.inr ⟨r2, List.mem_cons_of_mem _ hr2, hr2d⟩
    | some d =>
      rw [dtFold, hd] at hp
      rcases ih (dtInsert acc d r) p hp with h | ⟨r2, hr2, hr2d⟩
      · rcases dtInsert_dates d r acc p.date h with h2 | h2
        · exact Or.inr ⟨r, List.mem_cons_self _ _, by rw [hd, h2]⟩
        · exact Or.inl h2
      · exact Or.inr ⟨r2, List.mem_cons_of_mem _ hr2, hr2d⟩

/-- Claim C3 (amended): part 000's `trendData` has exactly
`daysBetween(start, end) + 1` entries for every valid range, one per
calendar day of the range in strictly ascending order, and a day with no
rows gets an entry whose per-employee values are all zero (it is not
omitted).  Part 001's `dailyTrend`, by contrast, only carries the dates
that occur in the filtered rows (empty days are skipped, not zero-filled;
see the counterexample). -/
theorem trendData_daily_shape :
    (∀ (rows : List Dashboard.MetricRow) (s e : Int) (topN : Nat), s ≤ e →
      (Dashboard.trendData rows (some s) (some e) topN).length =
        Dashboard.daysBetween s e + 1 ∧
      (Dashboard.trendData rows (some s) (some e) topN).map Prod.fst =
        Dashboard.dateRangeInclusive s e ∧
      (∀ d : Int,
        d ∈ (Dashboard.trendData rows (some s) (some e) topN).map Prod.fst ↔
          s ≤ d ∧ d ≤ e) ∧
      List.Chain' (· < ·)
        ((Dashboard.trendData rows (some s) (some e) topN).map Prod.fst) ∧
      (∀ p ∈ Dashboard.trendData rows (some s) (some e) topN,
        (∀ r ∈ rows, r.date ≠ some p.1) → ∀ q ∈ p.2, q.2 = 0)) ∧
    (∀ rows : List Dashboard.MetricRow, ∀ p ∈ Dashboard.dailyTrend rows,
      ∃ r ∈ rows, r.date = some p.date) := by
  constructor
  · intro rows s e topN hse
    have hnlt : ¬ e < s := by omega
    have hdl : Dashboard.daysList (some s) (some e) =
        Dashboard.dateRangeInclusive s e := by
      simp [Dashboard.daysList, hnlt]
    have hmap : (Dashboard.trendData rows (some s) (some e) topN).map
        Prod.fst = Dashboard.dateRangeInclusive s e := by
      simp only [Dashboard.trendData, hdl, List.map_map]
      exact List.map_id _
    refine ⟨?_, hmap, ?_, ?_, ?_⟩
    · have hlen := Dashboard.dateRangeInclusive_len (e - s).toNat s e rfl hse
      have : (Dashboard.trendData rows (some s) (some e) topN).length =
          (Dashboard.dateRangeInclusive s e).length := by
        rw [← hmap, List.length_map]
      rw [this, hlen]
      rfl
    · intro d
      rw [hmap]
      exact Dashboard.dateRangeInclusive_mem (e + 1 - s).toNat s e d rfl
    · rw [hmap]
      exact Dashboard.dateRangeInclusive_chain (e + 1 - s).toNat s e rfl
    · intro p hp hnone q hq
      simp only [Dashboard.trendData, hdl, List.mem_map] at hp
      obtain ⟨d, _, hpd⟩ := hp
      subst hpd
      simp only [List.mem_map] at hq
      obtain ⟨email, _, hqe⟩ := hq
      subst hqe
      exact Dashboard.respAt_eq_zero rows d email (fun r hr => hnone r hr)
  · intro rows p hp
    have hmem : p ∈ Dashboard.dtFold rows [] := by
      have hperm := Dashboard.sortBy_perm
        (fun a b : Dashboard.DayPoint => decide (a.date ≤ b.date))
        (Dashboard.dtFold rows [])
      exact hperm.mem_iff.mp hp
    rcases Dashboard.dtFold_dates rows [] p hmem with h | h
    · simp at h
    · exact h

/-- Claim C3, counterexample: for the range 1..3 and a single row on day 2,
part 001's daily series has one entry, not `daysBetween(1,3) + 1 = 3` —
days without rows are omitted, not zero-filled. -/
theorem dailyTrend_skips_empty_days :
    ¬ ((Dashboard.dailyTrend
        (Dashboard.metricsInRange [Dashboard.midRow] (some 1) (some 3))).length =
      Dashboard.daysBetween 1 3 + 1) := by
  decide

/-- Claim C3, witness for the amended theorem: the empty row set over the
range 1..3 still produces three daily entries. -/
theorem trendData_daily_shape_witness :
    (Dashboard.trendData [] (some 1) (some 3) 0).length =
      Dashboard.daysBetween 1 3 + 1 :=
  (trendData_daily_shape.1 [] 1 3 0 (by norm_num)).1

theorem qdiv_ok {a b : ℚ} (h : b ≠ 0) : qdiv a b = .ok (a / b) := by
  simp [qdiv, h]

theorem totalsE_ok (rows : List MetricRow) :
    totalsE rows = .ok (totals rows) := by
  unfold totalsE totals
  by_cases hw : 0 < (weightedLoop rows 0 0).2
  · have hwq : ((weightedLoop rows 0 0).2 : ℚ) ≠ 0 := by
      exact_mod_cast (by omega : (weightedLoop rows 0 0).2 ≠ 0)
    by_cases ht : 0 < totalResponsesOf rows
    · have htq : ((totalResponsesOf rows : Int) : ℚ) ≠ 0 := by
        exact_mod_cast (by omega : totalResponsesOf rows ≠ 0)
      simp [hw, ht, qdiv_ok hwq, qdiv_ok htq, Bind.bind, Except.bind, pure,
        Except.pure]
    · simp [hw, ht, qdiv_ok hwq, Bind.bind, Except.bind, pure, Except.pure]
  · by_cases ht : 0 < totalResponsesOf rows
    · have htq : ((totalResponsesOf rows : Int) : ℚ) ≠ 0 := by
        exact_mod_cast (by omega : totalResponsesOf rows ≠ 0)
      simp [hw, ht, qdiv_ok htq, Bind.bind, Except.bind, pure, Except.pure]
    · simp [hw, ht, Bind.bind, Except.bind, pure, Except.pure]

theorem summarizeE_ok (a : EmpAcc) : summarizeE a = .ok (summarize a) := by
  unfold summarizeE summarize
  by_cases h : 0 < a.total_first_responses
  · have hq : ((a.total_first_responses : Int) : ℚ) ≠ 0 := by
      exact_mod_cast (by omega : a.total_first_responses ≠ 0)
    simp [h, qdiv_ok hq, Bind.bind, Except.bind, pure, Except.pure]
  · simp [h, Bind.bind, Except.bind, pure, Except.pure]

theorem mapME_ok {α β : Type} (f : α → Except String β) (g : α → β)
    (h : ∀ a, f a = .ok (g a)) :
    ∀ l : List α, mapME f l = .ok (l.map g) := by
  intro l
  induction l with
  | nil => rfl
  | cons a as ih =>
    simp [mapME, h a, ih, Bind.bind, Except.bind, pure, Except.pure]

theorem perEmployeeE_ok (rows : List MetricRow) :
    perEmployeeE rows = .ok (perEmployee rows) := by
  unfold perEmployeeE perEmployee
  rw [mapME_ok summarizeE summarize summarizeE_ok]
  simp [Bind.bind, Except.bind, pure, Except.pure]

theorem avgResponseE_ok (rows : List MetricRow) :
    avgResponseE rows = .ok (avgResponse rows) := by
  unfold avgResponseE avgResponse
  by_cases hw : 0 < (weightedLoop rows 0 0).2
  · have hwq : ((weightedLoop rows 0 0).2 : ℚ) ≠ 0 := by
      exact_mod_cast (by omega : (weightedLoop rows 0 0).2 ≠ 0)
    simp [hw, qdiv_ok hwq, Bind.bind, Except.bind, pure, Except.pure]
  · simp [hw, Bind.bind, Except.bind, pure, Except.pure]

theorem slaPercentOfE_ok (rows : List MetricRow) :
    slaPercentOfE rows = .ok (slaPercentOf rows) := by
  unfold slaPercentOfE slaPercentOf
  by_cases ht : totalResponsesOf rows ≤ 0
  · simp [ht, Bind.bind, Except.bind, pure, Except.pure]
  · have htq : ((totalResponsesOf rows : Int) : ℚ) ≠ 0 := by
      exact_mod_cast (by omega : totalResponsesOf rows ≠ 0)
    simp [ht, qdiv_ok htq, Bind.bind, Except.bind, pure, Except.pure]

theorem heatIntensityE_ok (v m : Int) :
    heatIntensityE v m = .ok (heatIntensity v m) := by
  unfold heatIntensityE heatIntensity
  by_cases h : 0 < m
  · have hq : ((m : Int) : ℚ) ≠ 0 := by
      exact_mod_cast (by omega : m ≠ 0)
    simp [h, qdiv_ok hq]
  · simp [h]

/-- Claim C9: the aggregation functions are total — with division
instrumented as a fallible operation, every aggregator returns `.ok` of
its plain result on every input (the guards make a zero denominator
unreachable), and missing data degrades to the `none` sentinels (for
instance the empty row set yields zero counts and sentinel averages and
percentages, not an error). -/
theorem aggregators_total :
    (∀ rows : List Dashboard.MetricRow,
      Dashboard.totalsE rows = .ok (Dashboard.totals rows) ∧
      Dashboard.perEmployeeE rows = .ok (Dashboard.perEmployee rows) ∧
      Dashboard.avgResponseE rows = .ok (Dashboard.avgResponse rows) ∧
      Dashboard.slaPercentOfE rows = .ok (Dashboard.slaPercentOf rows)) ∧
    (∀ v m : Int,
      Dashboard.heatIntensityE v m = .ok (Dashboard.heatIntensity v m)) ∧
    Dashboard.totals [] = ⟨0, 0, none, none⟩ :=
  ⟨fun rows => ⟨Dashboard.totalsE_ok rows, Dashboard.perEmployeeE_ok rows,
    Dashboard.avgResponseE_ok rows, Dashboard.slaPercentOfE_ok rows⟩,
   fun v m => Dashboard.heatIntensityE_ok v m,
   rfl⟩

/-! The CSV round trip. -/

theorem data_append (a b : String) : (a ++ b).data = a.data ++ b.data := rfl

theorem mk_data (s : String) : String.mk s.data = s := rfl

theorem joinSep_data (sep : String) :
    ∀ l : List String,
      (joinSep sep l).data = listJoin sep.data (l.map String.data)
  | [] => rfl
  | [x] => rfl
  | x :: y :: xs => by
    show (x ++ (sep ++ joinSep sep (y :: xs))).data =
      (x.data ++ sep.data) ++ listJoin sep.data ((y :: xs).map String.data)
    rw [data_append, data_append, joinSep_data sep (y :: xs)]
    simp [List.append_assoc]

theorem esc_eq (v : Option String) : esc v = csvEscape (v.getD "") := by
  cases v with
  | none => rfl
  | some s => rfl

theorem toCSV_data (rows : List (String → Option String))
    (headers : List String) :
    (toCSV rows headers).data = serFileData (csvTable rows headers) := by
  unfold toCSV serFileData csvTable
  rw [joinSep_data]
  congr 1
  simp only [List.map_cons, List.map_map]
  congr 1
  · rw [joinSep_data]
    unfold serRecData
    congr 1
    simp only [List.map_map]
    apply List.map_congr_left
    intro a _
    rfl
  · apply List.map_congr_left
    intro r _
    show (joinSep (",") (headers.map (fun h => esc (r h)))).data =
      serRecData (headers.map (fun h => (r h).getD ""))
    rw [joinSep_data]
    unfold serRecData
    congr 1
    simp only [List.map_map]
    apply List.map_congr_left
    intro h _
    show (esc (r h)).data = serFieldData ((r h).getD "")
    rw [esc_eq]
    rfl

theorem quoteSeen_eq_plain (c : Char) (cs cur : List Char)
    (flds : List String) (recs : List (List String)) (h : ¬ c = '"') :
    csvParseAux .quoteSeen (c :: cs) cur flds recs =
      csvParseAux .plain (c :: cs) cur flds recs := by
  have hb : (c == '"') = false := by simp [h]
  simp only [csvParseAux, hb]
  simp

theorem parse_plain_copy :
    ∀ (ds rest cur : List Char) (flds : List String)
      (recs : List (List String)),
      (∀ c ∈ ds, isCsvSpecial c = false) →
      csvParseAux .plain (ds ++ rest) cur flds recs =
        csvParseAux .plain rest (ds.reverse ++ cur) flds recs := by
  intro ds
  induction ds with
  | nil =>
    intro rest cur flds recs _
    simp
  | cons c cs ih =>
    intro rest cur flds recs h
    have hc := h c (by simp)
    simp only [isCsvSpecial, Bool.or_eq_false_iff] at hc
    obtain ⟨⟨h1, h2⟩, h3⟩ := hc
    simp only [List.cons_append, csvParseAux, h1, h2, h3]
    simp only [Bool.false_eq_true, if_false, List.append_eq]
    rw [ih rest (c :: cur) flds recs (fun x hx => h x (by simp [hx]))]
    simp

theorem parse_quoted_copy :
    ∀ (ds rest cur : List Char) (flds : List String)
      (recs : List (List String)),
      rest.head? ≠ some '"' →
      csvParseAux .quoted (dupQuotes ds ++ ('"' :: rest)) cur flds recs =
        csvParseAux .plain rest (ds.reverse ++ cur) flds recs := by
  intro ds
  induction ds with
  | nil =>
    intro rest cur flds recs h
    simp only [dupQuotes, List.nil_append]
    cases rest with
    | nil => rfl
    | cons c2 cs2 =>
      have hc2 : ¬ c2 = '"' := by
        intro hh
        exact h (by simp [hh])
      calc csvParseAux .quoted ('"' :: c2 :: cs2) cur flds recs
          = csvParseAux .quoteSeen (c2 :: cs2) cur flds recs := by
            simp only [csvParseAux]
            simp
        _ = csvParseAux .plain (c2 :: cs2) cur flds recs :=
            quoteSeen_eq_plain c2 cs2 cur flds recs hc2
        _ = csvParseAux .plain (c2 :: cs2) (List.reverse [] ++ cur) flds recs := by
            simp
  | cons c cs ih =>
    intro rest cur flds recs h
    by_cases hc : c = '"'
    · subst hc
      simp only [dupQuotes]
      simp only [beq_self_eq_true, if_true, List.cons_append]
      calc csvParseAux .quoted
            ('"' :: '"' :: (dupQuotes cs ++ ('"' :: rest))) cur flds recs
          = csvParseAux .quoteSeen ('"' :: (dupQuotes cs ++ ('"' :: rest)))
              cur flds recs := by
            simp only [csvParseAux]
            simp
        _ = csvParseAux .quoted (dupQuotes cs ++ ('"' :: rest))
              ('"' :: cur) flds recs := by
            simp only [csvParseAux]
            simp
        _ = csvParseAux .plain rest (cs.reverse ++ ('"' :: cur)) flds recs :=
            ih rest ('"' :: cur) flds recs h
        _ = csvParseAux .plain rest (('"' :: cs).reverse ++ cur) flds recs := by
            simp
    · have hb : (c == '"') = false := by simp [hc]
      simp only [dupQuotes, hb, Bool.false_eq_true, if_false,
        List.cons_append]
      calc csvParseAux .quoted (c :: (dupQuotes cs ++ ('"' :: rest)))
            cur flds recs
          = csvParseAux .quoted (dupQuotes cs ++ ('"' :: rest))
              (c :: cur) flds recs := by
            simp only [csvParseAux, hb]
            simp
        _ = csvParseAux .plain rest (cs.reverse ++ (c :: cur)) flds recs :=
            ih rest (c :: cur) flds recs h
        _ = csvParseAux .plain rest ((c :: cs).reverse ++ cur) flds recs := by
            simp

theorem parse_field (f : String) (rest cur : List Char) (flds : List String)
    (recs : List (List String)) (h : rest.head? ≠ some '"') :
    csvParseAux .plain (serFieldData f ++ rest) cur flds recs =
      csvParseAux .plain rest (f.data.reverse ++ cur) flds recs := by
  unfold serFieldData csvEscape
  by_cases hq : f.data.any isCsvSpecial = true
  · rw [if_pos hq]
    have hre : (String.mk ('"' :: (dupQuotes f.data ++ ['"']))).data ++ rest =
        '"' :: (dupQuotes f.data ++ ('"' :: rest)) := by
      simp
    rw [hre]
    calc csvParseAux .plain ('"' :: (dupQuotes f.data ++ ('"' :: rest)))
          cur flds recs
        = csvParseAux .quoted (dupQuotes f.data ++ ('"' :: rest))
            cur flds recs := by
          simp only [csvParseAux]
          simp
      _ = csvParseAux .plain rest (f.data.reverse ++ cur) flds recs :=
          parse_quoted_copy f.data rest cur flds recs h
  · rw [if_neg hq]
    apply parse_plain_copy
    intro c hcmem
    cases hbb : isCsvSpecial c with
    | false => rfl
    | true =>
      exfalso
      apply hq
      rw [List.any_eq_true]
      exact ⟨c, hcmem, hbb⟩

theorem parse_record_nl :
    ∀ (fields : List String) (rest : List Char) (flds : List String)
      (recs : List (List String)), fields ≠ [] →
      csvParseAux .plain (serRecData fields ++ ('\n' :: rest)) [] flds recs =
        csvParseAux .plain rest [] [] ((flds.reverse ++ fields) :: recs) := by
  intro fields
  induction fields with
  | nil => intro rest flds recs h; exact absurd rfl h
  | cons f fs ih =>
    intro rest flds recs _
    cases fs with
    | nil =>
      show csvParseAux .plain (serFieldData f ++ ('\n' :: rest)) [] flds recs
        = _
      rw [parse_field f ('\n' :: rest) [] flds recs (by simp)]
      simp only [List.append_nil, csvParseAux]
      simp [mk_data]
    | cons f2 fs2 =>
      have hsr : serRecData (f :: f2 :: fs2) ++ ('\n' :: rest) =
          serFieldData f ++ (',' :: (serRecData (f2 :: fs2) ++ ('\n' :: rest))) := by
        show (serFieldData f ++ [','] ++ listJoin [','] ((f2 :: fs2).map serFieldData)) ++ ('\n' :: rest) = _
        simp [serRecData]
      rw [hsr, parse_field f _ [] flds recs (by simp)]
      have hstep : csvParseAux .plain
          (',' :: (serRecData (f2 :: fs2) ++ ('\n' :: rest)))
          (f.data.reverse ++ []) flds recs =
          csvParseAux .plain (serRecData (f2 :: fs2) ++ ('\n' :: rest))
            [] (f :: flds) recs := by
        simp only [csvParseAux]
        simp [mk_data]
      rw [hstep, ih rest (f :: flds) recs (by simp)]
      simp

theorem parse_record_eof :
    ∀ (fields : List String) (flds : List String)
      (recs : List (List String)), fields ≠ [] →
      csvParseAux .plain (serRecData fields) [] flds recs =
        ((flds.reverse ++ fields) :: recs).reverse := by
  intro fields
  induction fields with
  | nil => intro flds recs h; exact absurd rfl h
  | cons f fs ih =>
    intro flds recs _
    cases fs with
    | nil =>
      show csvParseAux .plain (serFieldData f) [] flds recs = _
      have hre : serFieldData f = serFieldData f ++ [] := by simp
      rw [hre, parse_field f [] [] flds recs (by simp)]
      simp only [List.append_nil, csvParseAux]
      simp [mk_data]
    | cons f2 fs2 =>
      have hsr : serRecData (f :: f2 :: fs2) =
          serFieldData f ++ (',' :: serRecData (f2 :: fs2)) := by
        show serFieldData f ++ [','] ++ listJoin [','] ((f2 :: fs2).map serFieldData) = _
        simp [serRecData]
      rw [hsr, parse_field f _ [] flds recs (by simp)]
      have hstep : csvParseAux .plain (',' :: serRecData (f2 :: fs2))
          (f.data.reverse ++ []) flds recs =
          csvParseAux .plain (serRecData (f2 :: fs2)) [] (f :: flds) recs := by
        simp only [csvParseAux]
        simp [mk_data]
      rw [hstep, ih (f :: flds) recs (by simp)]
      simp

theorem parse_file :
    ∀ (records recs : List (List String)),
      records ≠ [] → (∀ rec ∈ records, rec ≠ []) →
      csvParseAux .plain (serFileData records) [] [] recs =
        recs.reverse ++ records := by
  intro records
  induction records with
  | nil => intro recs h _; exact absurd rfl h
  | cons rec rs ih =>
    intro recs _ hall
    cases rs with
    | nil =>
      show csvParseAux .plain (serRecData rec) [] [] recs = _
      rw [parse_record_eof rec [] recs (hall rec (by simp))]
      simp
    | cons r2 rs2 =>
      have hsf : serFileData (rec :: r2 :: rs2) =
          serRecData rec ++ ('\n' :: serFileData (r2 :: rs2)) := by
        show serRecData rec ++ ['\n'] ++ listJoin ['\n'] ((r2 :: rs2).map serRecData) = _
        simp [serFileData]
      rw [hsf, parse_record_nl rec _ [] recs (hall rec (by simp))]
      simp only [List.reverse_nil, List.nil_append]
      rw [ih (rec :: recs) (by simp) (fun x hx => hall x (by simp [hx]))]
      simp

theorem parseCSV_toCSV (rows : List (String → Option String))
    (headers : List String) (h : headers ≠ []) :
    parseCSV (toCSV rows headers) = csvTable rows headers := by
  unfold parseCSV
  rw [toCSV_data, parse_file (csvTable rows headers) [] (by simp [csvTable])]
  · simp
  · intro rec hrec
    simp only [csvTable, List.mem_cons, List.mem_map] at hrec
    rcases hrec with rfl | ⟨r, _, rfl⟩
    · exact h
    · simp [h]

theorem csvEscape_head (s : String) :
    ((csvEscape s).data.head? = some '"') ↔
      s.data.any isCsvSpecial = true := by
  unfold csvEscape
  by_cases hq : s.data.any isCsvSpecial = true
  · rw [if_pos hq]
    simp [hq]
  · rw [if_neg hq]
    constructor
    · intro hh
      exfalso
      cases hd : s.data with
      | nil => rw [hd] at hh; simp at hh
      | cons c cs =>
        rw [hd] at hh
        simp only [List.head?_cons, Option.some.injEq] at hh
        apply hq
        rw [List.any_eq_true]
        refine ⟨c, by rw [hd]; simp, ?_⟩
        rw [hh]
        rfl
    · intro hh
      exact absurd hh hq

/-- Claim C8: the serialiser quotes (doubling embedded quotes) exactly the
values containing a quote, comma or newline, and parsing the produced text
back — splitting on commas and newlines while honouring quoted fields —
reproduces every original column value exactly, for every row list and
every non-empty column set. -/
theorem csv_escape_round_trip :
    (∀ s : String,
      ((Dashboard.csvEscape s).data.head? = some '"') ↔
        s.data.any Dashboard.isCsvSpecial = true) ∧
    (∀ (rows : List (String → Option String)) (headers : List String),
      headers ≠ [] →
      Dashboard.parseCSV (Dashboard.toCSV rows headers) =
        Dashboard.csvTable rows headers) :=
  ⟨Dashboard.csvEscape_head, Dashboard.parseCSV_toCSV⟩

/-- Claim C8, witness: a two-column table whose first cell contains a comma,
a quote and a newline and whose second cell is missing round-trips to its
original values. -/
theorem csv_escape_round_trip_witness :
    Dashboard.parseCSV
        (Dashboard.toCSV [Dashboard.trickyRow] ["a", "b"]) =
      Dashboard.csvTable [Dashboard.trickyRow] ["a", "b"] :=
  csv_escape_round_trip.2 [Dashboard.trickyRow] ["a", "b"] (by simp)

end Dashboard
